import Mathlib

/-!
Verification of the field-extraction engine of a real-estate scraper
(src/scraper.py).  The Python source is embedded shallowly:

* Python strings are Lean `String`s and the handful of `str` methods the
  scraper uses (`lower`, `strip`, `split`, `in`, `startswith`, `isdigit`,
  `replace`) are modelled as executable functions over `String.data`
  (ASCII semantics, which is all the scraper's literals need).
* The BeautifulSoup document is a tree `HNode`; `flatten` lists every
  node together with its path, in preorder = bs4 document order, which
  gives `find`, `find_all`, `find_parent`, `find_next`,
  `find_next_siblings`, `find_previous_sibling` and `get_text(strip=True)`.
* The HTTP layer is a parameter `fetch : String -> FetchOutcome`; the
  record produced by `extract_property_data` is an ordered association
  list, mirroring a Python dict with its insertion order.
-/

namespace Scraper

/-- Python `str.lower()` (ASCII case folding, which covers every literal
the scraper compares). -/
def pyLower (s : String) : String := ⟨s.data.map Char.toLower⟩

/-- Python `str.strip()`: drop leading and trailing whitespace. -/
def pyStrip (s : String) : String :=
  ⟨((s.data.dropWhile Char.isWhitespace).reverse.dropWhile Char.isWhitespace).reverse⟩

/-- Boolean list-prefix test (helper for the substring test below). -/
def isPrefixB : List Char → List Char → Bool
  | [], _ => true
  | _ :: _, [] => false
  | a :: as, b :: bs => a == b && isPrefixB as bs

/-- Boolean contiguous-substring test on character lists. -/
def containsB (pat : List Char) : List Char → Bool
  | [] => isPrefixB pat []
  | b :: l => isPrefixB pat (b :: l) || containsB pat l

/-- Python `pat in s` for strings. -/
def containsStr (s pat : String) : Bool := containsB pat.data s.data

/-- Python `s.startswith(pre)`. -/
def startsWithStr (s pre : String) : Bool := isPrefixB pre.data s.data

/-- Python `s.isdigit()` (restricted to ASCII digits). -/
def pyIsDigit (s : String) : Bool := !s.data.isEmpty && s.data.all Char.isDigit

/-- Python `s.replace(",", "")`. -/
def dropCommas (s : String) : String := ⟨s.data.filter (fun c => c != ',')⟩

/-- The length of `dropWhile` never exceeds the length of the input. -/
theorem lenDropWhileLe {α : Type} (p : α → Bool) :
    ∀ l : List α, (l.dropWhile p).length ≤ l.length
  | [] => Nat.le_refl 0
  | a :: as => by
    rw [List.dropWhile_cons]
    split
    · exact Nat.le_trans (lenDropWhileLe p as) (Nat.le_succ _)
    · exact Nat.le_refl _

/-- Python no-argument `str.split()`: split on whitespace runs, no empty
tokens. -/
def wsTokens : List Char → List String
  | [] => []
  | c :: cs =>
    if c.isWhitespace then wsTokens cs
    else
      (⟨c :: cs.takeWhile (fun d => !d.isWhitespace)⟩ : String) ::
        wsTokens (cs.dropWhile (fun d => !d.isWhitespace))
termination_by l => l.length
decreasing_by
  · simp only [List.length_cons]
    omega
  · simp only [List.length_cons]
    exact Nat.lt_succ_of_le (lenDropWhileLe _ _)

/-- Python `s.split()` on a string. -/
def pySplit (s : String) : List String := wsTokens s.data

mutual

/-- A node of the parsed HTML tree: a text node (bs4 NavigableString) or
an element with tag name, attributes and children.  Attributes are kept
as raw strings (bs4 splits `class` into tokens; the matching helpers
below reproduce the observable behaviour on whole strings). -/
inductive HNode where
  | text (s : String)
  | elem (tag : String) (attrs : List (String × String)) (children : HKids)

/-- A children sequence (kept as its own type so that recursion over the
tree is structural and evaluates by kernel reduction). -/
inductive HKids where
  | nil
  | cons (head : HNode) (tail : HKids)

end

/-- Build a children sequence from a list literal. -/
def kidsOf : List HNode → HKids
  | [] => .nil
  | c :: cs => .cons c (kidsOf cs)

/-- A path of child indices identifying one node occurrence in the tree. -/
abbrev Path := List Nat

mutual

/-- Preorder flattening: every node of the tree paired with its path, in
bs4 document order (a node precedes its descendants, siblings are in
child-index order). -/
def flatten : HNode → List (Path × HNode)
  | .text s => [([], .text s)]
  | .elem t a kids => ([], .elem t a kids) :: flattenKids 0 kids

/-- Flattening of a children sequence: the child at index `i`
contributes paths starting with `i`. -/
def flattenKids : Nat → HKids → List (Path × HNode)
  | _, .nil => []
  | i, .cons c cs => ((flatten c).map fun pn => (i :: pn.1, pn.2)) ++ flattenKids (i + 1) cs

end

/-- Strict document order on paths: an ancestor precedes its descendants,
siblings are ordered by index (lexicographic order with proper prefixes
first).  This is exactly the order in which `flatten` lists paths. -/
def pathLt : Path → Path → Bool
  | _, [] => false
  | [], _ :: _ => true
  | a :: as, b :: bs => decide (a < b) || (a == b && pathLt as bs)

/-- All text-node contents of (the subtree of) a node, in document order:
bs4 `.strings`. -/
def docStrings (d : HNode) : List String :=
  (flatten d).filterMap fun q =>
    match q.2 with
    | .text s => some s
    | .elem _ _ _ => none

/-- bs4 `get_text(strip=True)`: each descendant string stripped, then
concatenated (default separator is the empty string). -/
def getTextStrip (n : HNode) : String :=
  ⟨((docStrings n).map (fun s => (pyStrip s).data)).flatten⟩

/-- Tag name of an element node. -/
def HNode.tagName : HNode → Option String
  | .elem t _ _ => some t
  | .text _ => none

/-- Attribute lookup on an element node. -/
def HNode.attr : HNode → String → Option String
  | .elem _ a _, k => (a.find? (fun kv => kv.1 == k)).map (·.2)
  | .text _, _ => none

/-- Does the node have the given tag name? -/
def isTag (t : String) (n : HNode) : Bool := n.tagName == some t

/-- Is the node an element (bs4 Tag)? -/
def isElemNode : HNode → Bool
  | .elem _ _ _ => true
  | .text _ => false

mutual

/-- bs4 `.string`: the single text content of a tag, defined only when
the tag has exactly one child (recursively). -/
def nodeString : HNode → Option String
  | .text s => some s
  | .elem _ _ kids => kidsString kids

/-- bs4 `.string` of a children sequence: defined only for a single
child. -/
def kidsString : HKids → Option String
  | .nil => none
  | .cons h .nil => nodeString h
  | .cons _ (.cons _ _) => none

end

/-- bs4 matching of a plain-string value against the `class` attribute:
the value must be one of the whitespace-separated class tokens (or the
whole attribute string). -/
def classEquals (n : HNode) (v : String) : Bool :=
  match n.attr "class" with
  | some c => (wsTokens c.data).contains v || c == v
  | none => false

/-- The scraper's callable class matcher `lambda x: x and sub in x.lower()`
(absent attribute matches nothing). -/
def classContainsCI (n : HNode) (sub : String) : Bool :=
  match n.attr "class" with
  | some c => containsStr (pyLower c) sub
  | none => false

/-- The scraper's callable data-testid matcher
`lambda x: x and sub in x.lower()`. -/
def testidContainsCI (n : HNode) (sub : String) : Bool :=
  match n.attr "data-testid" with
  | some x => containsStr (pyLower x) sub
  | none => false

/-- bs4 `soup.find(...)`: first node in document order satisfying the
predicate. -/
def findFirst (d : HNode) (p : HNode → Bool) : Option HNode :=
  ((flatten d).find? (fun q => p q.2)).map (·.2)

/-- The parent path of a non-root path (bs4 `find_parent`; only the
root — the soup object itself — has no parent). -/
def parentPath? : Path → Option Path
  | [] => none
  | p => some p.dropLast

/-- The node stored at a given path. -/
def nodeAt (d : HNode) (p : Path) : Option HNode :=
  ((flatten d).find? (fun q => q.1 == p)).map (·.2)

/-- bs4 `node.find_next(tag)`: the first element with the given tag that
is strictly after the node at `p` in document order (the node's own
descendants included). -/
def findNextTag (d : HNode) (p : Path) (tag : String) : Option HNode :=
  (((flatten d).filter (fun q => pathLt p q.1)).find? (fun q => isTag tag q.2)).map (·.2)

/-- bs4 `node.find_next_siblings()` with no arguments: the element (Tag)
siblings after the node at `p`, in document order. -/
def siblingElemsAfter (d : HNode) (p : Path) : List HNode :=
  ((flatten d).filter (fun q =>
      q.1.length == p.length && q.1.dropLast == p.dropLast &&
        pathLt p q.1 && isElemNode q.2)).map (·.2)

/-- bs4 `node.find_previous_sibling()` with no arguments: the nearest
element (Tag) sibling before the node at `p`. -/
def prevSiblingElem (d : HNode) (p : Path) : Option HNode :=
  (((flatten d).filter (fun q =>
      q.1.length == p.length && q.1.dropLast == p.dropLast &&
        pathLt q.1 p && isElemNode q.2)).getLast?).map (·.2)

/-- First `some` produced by `f` along a list: the shape of the scraper's
for-loops that `return` on the first hit and fall through otherwise. -/
def firstSome {α β : Type} (f : α → Option β) : List α → Option β
  | [] => none
  | a :: as =>
    match f a with
    | some b => some b
    | none => firstSome f as

/-! ### The five field extractors (`ZillowScraper._extract_*`) -/

/-- The address selector chain of `_extract_address`: h1 with class
ds-address-container, then h1 with data-testid bdp-address, then any h1. -/
def addressSelectors : List (HNode → Bool) :=
  [ fun n => isTag "h1" n && classEquals n "ds-address-container"
  , fun n => isTag "h1" n && (n.attr "data-testid" == some "bdp-address")
  , fun n => isTag "h1" n ]

/-- `_extract_address`: first selector whose hit has non-empty stripped
text wins; otherwise the sentinel. -/
def extract_address (soup : HNode) : String :=
  (firstSome (fun sel =>
      match findFirst soup sel with
      | some el =>
          let t := getTextStrip el
          if t != "" then some t else none
      | none => none)
    addressSelectors).getD "N/A"

/-- The keyword list of `_extract_lot_size`, method 1. -/
def lotKeywords : List String := ["Lot size", "Lot Size", "lot size"]

/-- `find_all('span', string=lambda t: t and keyword in t)`: spans whose
single text content contains the keyword (case-sensitive). -/
def lotSpans (soup : HNode) (keyword : String) : List (Path × HNode) :=
  (flatten soup).filter fun q =>
    isTag "span" q.2 &&
      (match nodeString q.2 with
       | some t => containsStr t keyword
       | none => false)

/-- Method 1 of `_extract_lot_size`, for one matched span: take the
span's parent (present exactly when the span is not the root), then
`parent.find_next('span')`, and accept its stripped text when non-empty
and different from the keyword. -/
def lotCandidate (soup : HNode) (keyword : String) : Path → Option String
  | [] => none
  | p@(_ :: _) =>
    match findNextTag soup p.dropLast "span" with
    | some nsp =>
        let t := getTextStrip nsp
        if t != "" && t != keyword then some t else none
    | none => none

/-- Method 1 of `_extract_lot_size`: keywords in order, matched spans in
document order, first accepted candidate wins. -/
def lotMethod1 (soup : HNode) : Option String :=
  firstSome (fun kw => firstSome (fun q => lotCandidate soup kw q.1) (lotSpans soup kw))
    lotKeywords

/-- Method 2 of `_extract_lot_size`: spans whose data-testid contains
"lot" (case-insensitive) with a unit token in their text. -/
def lotMethod2 (soup : HNode) : Option String :=
  firstSome (fun q =>
      let t := getTextStrip q.2
      if ["sqft", "sq ft", "acres", "acre"].any (fun u => containsStr (pyLower t) u)
      then some t else none)
    ((flatten soup).filter fun q => isTag "span" q.2 && testidContainsCI q.2 "lot")

/-- `_extract_lot_size`. -/
def extract_lot_size (soup : HNode) : String :=
  match lotMethod1 soup with
  | some v => v
  | none =>
    match lotMethod2 soup with
    | some v => v
    | none => "N/A"

/-- The selector chain of `_extract_price`: span with data-testid price,
then span with class containing "price", then div with class containing
"price". -/
def priceSelectors : List (HNode → Bool) :=
  [ fun n => isTag "span" n && (n.attr "data-testid" == some "price")
  , fun n => isTag "span" n && classContainsCI n "price"
  , fun n => isTag "div" n && classContainsCI n "price" ]

/-- One selector trial of `_extract_price`: the find's hit is returned
only when its stripped text is non-empty and contains a dollar sign. -/
def priceTrySelector (soup : HNode) (sel : HNode → Bool) : Option String :=
  match findFirst soup sel with
  | some el =>
      let t := getTextStrip el
      if t != "" && containsStr t "$" then some t else none
  | none => none

/-- The selector phase of `_extract_price`. -/
def priceFromSelectors (soup : HNode) : Option String :=
  firstSome (priceTrySelector soup) priceSelectors

/-- `find_all(string=lambda t: t and '$' in t and any(c.isdigit() for c in t))`:
all text nodes with a dollar sign and a digit, in document order. -/
def priceFallbackCandidates (soup : HNode) : List String :=
  (docStrings soup).filter fun s => containsStr s "$" && s.data.any Char.isDigit

/-- `text.split()[0]`: the first whitespace-delimited token.  The
impossible empty case maps to the sentinel, mirroring the IndexError
that the extractor's catch-all except would turn into "N/A". -/
def firstToken (t : String) : String := (wsTokens t.data).headD "N/A"

/-- The fallback phase of `_extract_price`: first candidate whose
stripped text starts with "$" and contains a comma; return its first
token. -/
def priceFallback (soup : HNode) : Option String :=
  firstSome (fun s =>
      let t := pyStrip s
      if startsWithStr t "$" && containsStr t "," then some (firstToken t) else none)
    (priceFallbackCandidates soup)

/-- `_extract_price`. -/
def extract_price (soup : HNode) : String :=
  match priceFromSelectors soup with
  | some v => v
  | none =>
    match priceFallback soup with
    | some v => v
    | none => "N/A"

/-- The label variants of `_extract_price_per_sqft`. -/
def ppsPatterns : List String := ["$/sqft", "per sqft", "Price/sqft"]

/-- `find_all('span', string=lambda t: t and pattern.lower() in t.lower())`. -/
def ppsSpans (soup : HNode) (pattern : String) : List (Path × HNode) :=
  (flatten soup).filter fun q =>
    isTag "span" q.2 &&
      (match nodeString q.2 with
       | some t => containsStr (pyLower t) (pyLower pattern)
       | none => false)

/-- One matched span of `_extract_price_per_sqft`: scan the parent's
following element siblings for text containing "$", then fall back to
the immediately preceding element sibling. -/
def ppsCandidate (soup : HNode) : Path → Option String
  | [] => none
  | p@(_ :: _) =>
    match firstSome (fun sib =>
        let t := getTextStrip sib
        if t != "" && containsStr t "$" then some t else none)
      (siblingElemsAfter soup p.dropLast) with
    | some v => some v
    | none =>
      match prevSiblingElem soup p.dropLast with
      | some prev =>
          let t := getTextStrip prev
          if t != "" && containsStr t "$" then some t else none
      | none => none

/-- `_extract_price_per_sqft`. -/
def extract_price_per_sqft (soup : HNode) : String :=
  match firstSome (fun pat => firstSome (fun q => ppsCandidate soup q.1) (ppsSpans soup pat))
      ppsPatterns with
  | some v => v
  | none =>
    match findFirst soup (fun n => isTag "span" n && testidContainsCI n "price-per-sqft") with
    | some el => getTextStrip el
    | none => "N/A"

/-- The label variants of `_extract_days_on_market`. -/
def daysKeywords : List String :=
  ["Time on Zillow", "Days on Zillow", "on Zillow", "Days on market"]

/-- `find_all(string=lambda t: t and keyword.lower() in t.lower())`: the
text nodes containing the keyword case-insensitively, with their paths. -/
def daysTextNodes (soup : HNode) (kw : String) : List (Path × String) :=
  (flatten soup).filterMap fun q =>
    match q.2 with
    | .text s =>
        if containsStr (pyLower s) (pyLower kw) then some (q.1, s) else none
    | .elem _ _ _ => none

/-- A candidate token is purely numeric, commas allowed:
`word.isdigit() or word.replace(',', '').isdigit()`. -/
def numericTok (w : String) : Bool := pyIsDigit w || pyIsDigit (dropCommas w)

/-- The inner token scan of `_extract_days_on_market`, carrying the
lowercased full text of the parent: the first numeric token is returned
(suffixed with " days") when the following token contains "day" or the
full text contains "zillow" or "market". -/
def daysScan (fullLower : String) : List String → Option String
  | [] => none
  | w :: rest =>
    if numericTok w then
      match rest with
      | nxt :: _ =>
        if containsStr (pyLower nxt) "day" then some (w ++ " days")
        else if containsStr fullLower "zillow" || containsStr fullLower "market" then
          some (w ++ " days")
        else daysScan fullLower rest
      | [] =>
        if containsStr fullLower "zillow" || containsStr fullLower "market" then
          some (w ++ " days")
        else daysScan fullLower rest
    else daysScan fullLower rest

/-- One matched text node of `_extract_days_on_market`: scan the
whitespace tokens of the parent's full stripped text. -/
def daysCandidate (soup : HNode) : Path → Option String
  | [] => none
  | p@(_ :: _) =>
    match nodeAt soup p.dropLast with
    | some parent =>
        let ft := getTextStrip parent
        daysScan (pyLower ft) (pySplit ft)
    | none => none

/-- `_extract_days_on_market`. -/
def extract_days_on_market (soup : HNode) : String :=
  (firstSome (fun kw => firstSome (fun q => daysCandidate soup q.1) (daysTextNodes soup kw))
    daysKeywords).getD "N/A"

/-! ### URL validation and the record assembler -/

/-- A character allowed in a URL scheme
(`urllib.parse.scheme_chars`: letters, digits, "+", "-", "."). -/
def schemeChar (c : Char) : Bool :=
  c.isAlpha || c.isDigit || c == '+' || c == '-' || c == '.'

/-- Modelled from Python stdlib `urllib.parse.urlsplit` (an external
collaborator of the scraper): drop a leading "scheme:" when the prefix
before the first ":" is a valid scheme starting with a letter. -/
def stripScheme (l : List Char) : List Char :=
  match l.findIdx? (fun c => c == ':') with
  | some i =>
    if 0 < i && (match l.head? with | some c => c.isAlpha | none => false)
        && (l.take i).all schemeChar
    then l.drop (i + 1) else l
  | none => l

/-- Modelled from Python stdlib `urllib.parse.urlparse`: the netloc is
non-empty only after "//", extends to the first "/", "?" or "#", and a
netloc with mismatched square brackets raises ValueError (modelled as
`none`; the well-formedness check of a fully bracketed host is not
modelled). -/
def urlparseNetloc (url : String) : Option String :=
  match stripScheme url.data with
  | '/' :: '/' :: rest =>
    let netloc := rest.takeWhile fun c => c != '/' && c != '?' && c != '#'
    if (netloc.contains '[' && !netloc.contains ']')
        || (netloc.contains ']' && !netloc.contains '[') then none
    else some ⟨netloc⟩
  | _ => some ""

/-- `ZillowScraper.validate_url`: true iff "zillow.com" occurs in the
lowercased netloc; a parse failure is caught and yields false. -/
def validate_url (url : String) : Bool :=
  match urlparseNetloc url with
  | some netloc => containsStr (pyLower netloc) "zillow.com"
  | none => false

/-- Outcome of `session.get` followed by `raise_for_status` and
BeautifulSoup parsing (the parser tolerates any markup, so a successful
fetch always carries a document). -/
inductive FetchOutcome where
  | timeout
  | httpError (status : Nat)
  | requestFailed (msg : String)
  | success (doc : HNode)

/-- A scraper record: a Python dict as an insertion-ordered association
list.  The value `none` is Python None (only ever the error field). -/
abbrev Record := List (String × Option String)

/-- The dict literal built at the top of `extract_property_data`. -/
def initRecord (url ts : String) : Record :=
  [("url", some url), ("address", some "N/A"), ("lot_size", some "N/A"),
   ("price", some "N/A"), ("price_per_sqft", some "N/A"),
   ("days_on_market", some "N/A"), ("scrape_timestamp", some ts), ("error", none)]

/-- `result[k] = v` on a dict whose keys all exist: the value is replaced
in place, insertion order untouched. -/
def setField (r : Record) (k : String) (v : Option String) : Record :=
  r.map fun kv => if kv.1 == k then (kv.1, v) else kv

/-- Value of a field (the record's keys are fixed, so a missing key and a
Python None coincide on `none`). -/
def fieldVal (r : Record) (k : String) : Option String :=
  match r.find? (fun kv => kv.1 == k) with
  | some kv => kv.2
  | none => none

/-- `ZillowScraper.extract_property_data`.  The wall clock
(`datetime.now().strftime(...)`) is the parameter `ts`; the network and
parser are the parameter `fetch`.  The Python except-branches for fetch
failures are the three failure constructors; the final
except-Exception branch ("Parsing error") is unreachable in the
embedding because the extractors are total. -/
def extract_property_data (fetch : String → FetchOutcome) (ts url : String) : Record :=
  let result := initRecord url ts
  if validate_url url = false then
    setField result "error" (some "Invalid Zillow URL")
  else
    match fetch url with
    | .timeout => setField result "error" (some "Request timeout")
    | .httpError status => setField result "error" (some ("HTTP " ++ toString status))
    | .requestFailed msg => setField result "error" (some ("Request failed: " ++ msg))
    | .success soup =>
      let r := setField result "address" (some (extract_address soup))
      let r := setField r "lot_size" (some (extract_lot_size soup))
      let r := setField r "price" (some (extract_price soup))
      let r := setField r "price_per_sqft" (some (extract_price_per_sqft soup))
      setField r "days_on_market" (some (extract_days_on_market soup))

/-- The fixed CSV header of `scrape_urls`. -/
def fieldnames : List String :=
  ["url", "address", "lot_size", "price", "price_per_sqft",
   "days_on_market", "scrape_timestamp", "error"]

/-- One CSV row as written by `csv.DictWriter(f, fieldnames=...)`:
one cell per field name, Python None rendered as the empty string. -/
def csvRow (r : Record) : List String :=
  fieldnames.map fun k => (fieldVal r k).getD ""

/-- The five data fields of a record, in schema order. -/
def dataFields (r : Record) : List (Option String) :=
  [fieldVal r "address", fieldVal r "lot_size", fieldVal r "price",
   fieldVal r "price_per_sqft", fieldVal r "days_on_market"]

/-! ### Helper lemmas -/

theorem firstSome_cons {α β : Type} (f : α → Option β) (a : α) (l : List α) :
    firstSome f (a :: l)
      = match f a with | some b => some b | none => firstSome f l := rfl

theorem firstSome_eq_none {α β : Type} {f : α → Option β} {l : List α}
    (h : ∀ a ∈ l, f a = none) : firstSome f l = none := by
  induction l with
  | nil => rfl
  | cons a as ih =>
    rw [firstSome_cons, h a (List.mem_cons_self a as)]
    exact ih fun x hx => h x (List.mem_cons_of_mem a hx)

theorem exists_of_firstSome_some {α β : Type} {f : α → Option β} {l : List α} {b : β}
    (h : firstSome f l = some b) : ∃ a ∈ l, f a = some b := by
  induction l with
  | nil => exact absurd h (by simp [firstSome])
  | cons a as ih =>
    rw [firstSome_cons] at h
    cases hfa : f a with
    | some c =>
        rw [hfa] at h
        exact ⟨a, List.mem_cons_self a as, by rw [hfa]; exact h⟩
    | none =>
        rw [hfa] at h
        obtain ⟨x, hx, hfx⟩ := ih h
        exact ⟨x, List.mem_cons_of_mem a hx, hfx⟩

theorem firstSome_congr {α β : Type} {f g : α → Option β} {l : List α}
    (h : ∀ a ∈ l, f a = g a) : firstSome f l = firstSome g l := by
  induction l with
  | nil => rfl
  | cons a as ih =>
    rw [firstSome_cons, firstSome_cons, h a (List.mem_cons_self a as)]
    cases g a with
    | some b => rfl
    | none => exact ih fun x hx => h x (List.mem_cons_of_mem a hx)

/-- A loop that strips each element and returns a function of the first
stripped element passing a test is a find-first over the stripped list. -/
theorem firstSome_map_find {α β γ : Type} (g : α → β) (p : β → Bool) (h : β → γ)
    (l : List α) :
    firstSome (fun s => if p (g s) then some (h (g s)) else none) l
      = ((l.map g).find? p).map h := by
  induction l with
  | nil => rfl
  | cons a as ih =>
    rw [List.map_cons, firstSome_cons]
    by_cases hp : p (g a) = true
    · simp [hp, List.find?_cons]
    · simp only [List.find?_cons, Bool.not_eq_true] at *
      simp [hp, ih]

/-- Find-first with test `q` inside a `p`-filtered list is the head of the
list filtered by the conjunction. -/
theorem find?_filter_eq_head? {α : Type} (l : List α) (p q : α → Bool) :
    (l.filter p).find? q = (l.filter (fun a => p a && q a)).head? := by
  induction l with
  | nil => rfl
  | cons a as ih =>
    by_cases hp : p a = true
    · by_cases hq : q a = true
      · simp [List.filter_cons, hp, hq, List.find?_cons]
      · simp only [Bool.not_eq_true] at hq
        simp [List.filter_cons, hp, hq, List.find?_cons, ih]
    · simp only [Bool.not_eq_true] at hp
      simp [List.filter_cons, hp, ih]

theorem isPrefixB_iff (p : List Char) : ∀ l : List Char,
    (isPrefixB p l = true ↔ ∃ t, l = p ++ t) := by
  induction p with
  | nil => intro l; simp [isPrefixB]
  | cons a as ih =>
    intro l
    cases l with
    | nil =>
        simp [isPrefixB]
    | cons b bs =>
        simp only [isPrefixB, Bool.and_eq_true, beq_iff_eq, ih bs, List.cons_append,
          List.cons.injEq]
        constructor
        · rintro ⟨rfl, t, rfl⟩; exact ⟨t, rfl, rfl⟩
        · rintro ⟨t, rfl, rfl⟩; exact ⟨rfl, t, rfl⟩

theorem containsB_iff (p : List Char) : ∀ l : List Char,
    (containsB p l = true ↔ ∃ u v, l = u ++ p ++ v) := by
  intro l
  induction l with
  | nil =>
    simp only [containsB, isPrefixB_iff]
    constructor
    · rintro ⟨t, ht⟩
      exact ⟨[], t, by simpa using ht⟩
    · rintro ⟨u, v, huv⟩
      rcases List.append_eq_nil.mp huv.symm with ⟨hup, hv⟩
      rcases List.append_eq_nil.mp hup with ⟨hu, hp⟩
      exact ⟨[], by simp [hp]⟩
  | cons b bs ih =>
    simp only [containsB, Bool.or_eq_true, isPrefixB_iff, ih]
    constructor
    · rintro (⟨t, ht⟩ | ⟨u, v, huv⟩)
      · exact ⟨[], t, by simpa using ht⟩
      · exact ⟨b :: u, v, by simp [huv]⟩
    · rintro ⟨u, v, huv⟩
      cases u with
      | nil => exact Or.inl ⟨v, by simpa using huv⟩
      | cons c u =>
          rcases List.cons.injEq .. ▸ huv with ⟨rfl, h⟩
          exact Or.inr ⟨u, v, by simpa using h⟩

/-- Substring containment is transitive along a containment of patterns. -/
theorem containsStr_trans {s a : String} (b : String)
    (h1 : containsStr s a = true) (h2 : containsB b.data a.data = true) :
    containsStr s b = true := by
  unfold containsStr at *
  rcases (containsB_iff a.data s.data).mp h1 with ⟨u, v, huv⟩
  rcases (containsB_iff b.data a.data).mp h2 with ⟨u2, v2, huv2⟩
  exact (containsB_iff b.data s.data).mpr
    ⟨u ++ u2, v2 ++ v, by simp [huv, huv2]⟩

theorem containsB_singleton {c : Char} : ∀ l : List Char,
    (containsB [c] l = true ↔ c ∈ l) := by
  intro l
  rw [containsB_iff]
  constructor
  · rintro ⟨u, v, rfl⟩; simp
  · intro hmem
    rcases List.append_of_mem hmem with ⟨u, v, rfl⟩
    exact ⟨u, v, by simp⟩

theorem mem_of_mem_dropWhile {α : Type} {p : α → Bool} {l : List α} {a : α}
    (h : a ∈ l.dropWhile p) : a ∈ l := by
  induction l with
  | nil => simp at h
  | cons b bs ih =>
    rw [List.dropWhile_cons] at h
    split at h
    · exact List.mem_cons_of_mem _ (ih h)
    · exact h

/-- Stripping only removes characters. -/
theorem mem_of_mem_pyStrip {s : String} {c : Char} (h : c ∈ (pyStrip s).data) :
    c ∈ s.data := by
  unfold pyStrip at h
  rw [List.mem_reverse] at h
  have h2 := mem_of_mem_dropWhile h
  rw [List.mem_reverse] at h2
  exact mem_of_mem_dropWhile h2

/-- Replacing a field's value does not change the record's key sequence. -/
theorem keys_setField (r : Record) (k : String) (v : Option String) :
    (setField r k v).map Prod.fst = r.map Prod.fst := by
  unfold setField
  rw [List.map_map]
  apply List.map_congr_left
  intro kv _
  by_cases h : kv.1 = k
  · simp [h]
  · simp [h]

/-! ### Claims -/

/-- C1 (behaviour of the code at the claim's input): the claim is false
of the code.  For the URL "https://www.notzillow.com/x" the validator
returns true, because "zillow.com" is a substring of the parsed host
"www.notzillow.com"; the scraper therefore proceeds to the network
fetch, and the produced record's error reflects the fetch outcome
(here a timeout), never "Invalid Zillow URL". -/
theorem c1_notzillow_url_is_fetched :
    validate_url "https://www.notzillow.com/x" = true ∧
    fieldVal (extract_property_data (fun _ => FetchOutcome.timeout) "2025-01-01 00:00:00"
        "https://www.notzillow.com/x") "error" = some "Request timeout" ∧
    fieldVal (extract_property_data (fun _ => FetchOutcome.httpError 403) "2025-01-01 00:00:00"
        "https://www.notzillow.com/x") "error" = some "HTTP 403" := by
  refine ⟨by decide, by decide, by decide⟩

/-- C2: for every URL whose parsed host does not contain "zillow.com"
(case-insensitively) the validator returns false; a URL that fails to
parse (modelled by `urlparseNetloc` returning none, as a raised
ValueError) also yields false; and whenever the validator returns
false, the record of `extract_property_data` does not depend on the
fetch function — no network call is made. -/
theorem c2_validate_url_contract (url : String) :
    (∀ h, urlparseNetloc url = some h → containsStr (pyLower h) "zillow.com" = false →
        validate_url url = false) ∧
    (urlparseNetloc url = none → validate_url url = false) ∧
    (validate_url url = false → ∀ f g ts,
        extract_property_data f ts url = extract_property_data g ts url) := by
  refine ⟨?_, ?_, ?_⟩
  · intro h hparse hno
    unfold validate_url
    rw [hparse]
    exact hno
  · intro hparse
    unfold validate_url
    rw [hparse]
  · intro hfalse f g ts
    unfold extract_property_data
    rw [hfalse]
    simp

/-- Witness for C2: a host without the substring, and a URL whose
netloc parsing fails (mismatched IPv6 bracket), are both rejected. -/
theorem c2_validate_url_contract_witness :
    validate_url "https://www.example.com/x" = false ∧
    validate_url "http://[::1" = false :=
  ⟨(c2_validate_url_contract "https://www.example.com/x").1 "www.example.com"
      (by decide) (by decide),
   (c2_validate_url_contract "http://[::1").2.1 (by decide)⟩

/-- C8: every record produced by `extract_property_data` carries exactly
the 8 schema fields, in the fixed order url, address, lot_size, price,
price_per_sqft, days_on_market, scrape_timestamp, error — on the
invalid-URL path, every fetch-failure path and the success path alike —
and the CSV row written for it has exactly 8 cells. -/
theorem c8_record_schema_stability (fetch : String → FetchOutcome) (ts url : String) :
    (extract_property_data fetch ts url).map Prod.fst = fieldnames ∧
    (csvRow (extract_property_data fetch ts url)).length = 8 := by
  constructor
  · unfold extract_property_data
    have hinit : (initRecord url ts).map Prod.fst = fieldnames := rfl
    split
    · rw [keys_setField]
      exact hinit
    · split <;> simp only [keys_setField] <;> exact hinit
  · unfold csvRow
    rw [List.length_map]
    rfl

/-- C9: extraction is deterministic in everything but the timestamp:
records produced from the same fetch outcome at two different clock
readings agree on url, address, lot_size, price, price_per_sqft,
days_on_market and error. -/
theorem c9_deterministic_modulo_timestamp (fetch : String → FetchOutcome)
    (ts1 ts2 url : String) :
    (extract_property_data fetch ts1 url).filter (fun kv => kv.1 != "scrape_timestamp")
      = (extract_property_data fetch ts2 url).filter (fun kv => kv.1 != "scrape_timestamp") := by
  unfold extract_property_data
  split
  · rfl
  · split <;> rfl

/-- C7: when the fetch of a validated URL fails, the record's error is
exactly "Request timeout" on a timeout, "HTTP <status>" on an HTTP
error status, and "Request failed: <message>" on any other transport
failure; in all three cases the five data fields remain "N/A" — the
failure is raised before any extractor runs, so no extraction result
can leak into the record. -/
theorem c7_fetch_failure_atomicity (fetch : String → FetchOutcome) (ts url : String)
    (hv : validate_url url = true) :
    (fetch url = FetchOutcome.timeout →
        fieldVal (extract_property_data fetch ts url) "error" = some "Request timeout" ∧
        dataFields (extract_property_data fetch ts url) = List.replicate 5 (some "N/A")) ∧
    (∀ status, fetch url = FetchOutcome.httpError status →
        fieldVal (extract_property_data fetch ts url) "error"
          = some ("HTTP " ++ toString status) ∧
        dataFields (extract_property_data fetch ts url) = List.replicate 5 (some "N/A")) ∧
    (∀ msg, fetch url = FetchOutcome.requestFailed msg →
        fieldVal (extract_property_data fetch ts url) "error"
          = some ("Request failed: " ++ msg) ∧
        dataFields (extract_property_data fetch ts url) = List.replicate 5 (some "N/A")) := by
  have hv' : ¬ (validate_url url = false) := by simp [hv]
  refine ⟨fun h => ?_, fun status h => ?_, fun msg h => ?_⟩ <;>
    · unfold extract_property_data
      rw [if_neg hv', h]
      exact ⟨rfl, rfl⟩

/-- Witness for C7 at a concrete validated URL and a timing-out fetch. -/
theorem c7_fetch_failure_atomicity_witness :
    fieldVal (extract_property_data (fun _ => FetchOutcome.timeout) "2025-01-01 00:00:00"
        "https://www.zillow.com/homedetails/123-Main-St") "error" = some "Request timeout" ∧
    dataFields (extract_property_data (fun _ => FetchOutcome.timeout) "2025-01-01 00:00:00"
        "https://www.zillow.com/homedetails/123-Main-St") = List.replicate 5 (some "N/A") :=
  (c7_fetch_failure_atomicity (fun _ => FetchOutcome.timeout) "2025-01-01 00:00:00"
      "https://www.zillow.com/homedetails/123-Main-St" (by decide)).1 rfl

/-- A string starting with "$" has a "$" in its first whitespace token. -/
theorem firstToken_dollar {t : String} (h : startsWithStr t "$" = true) :
    containsStr (firstToken t) "$" = true := by
  obtain ⟨rest, hrest⟩ := (isPrefixB_iff _ _).mp h
  have hd : t.data = '$' :: rest := hrest
  unfold firstToken
  rw [hd]
  show containsStr ((wsTokens ('$' :: rest)).headD "N/A") "$" = true
  rw [wsTokens]
  rw [if_neg (by decide)]
  show containsStr (⟨'$' :: rest.takeWhile (fun d => !d.isWhitespace)⟩ : String) "$" = true
  show containsB ['$'] ('$' :: rest.takeWhile (fun d => !d.isWhitespace)) = true
  rw [containsB_singleton]
  exact List.mem_cons_self _ _

/-- C10: the price extractor returns the sentinel "N/A" or a string
containing the currency symbol "$" — no code path produces a
non-sentinel price without a dollar sign. -/
theorem c10_price_contains_dollar (soup : HNode) :
    extract_price soup = "N/A" ∨ containsStr (extract_price soup) "$" = true := by
  unfold extract_price
  cases hsel : priceFromSelectors soup with
  | some v =>
    right
    obtain ⟨sel, _, hv⟩ := exists_of_firstSome_some hsel
    unfold priceTrySelector at hv
    cases hff : findFirst soup sel with
    | some el =>
        rw [hff] at hv
        simp only [] at hv
        split at hv
        · rename_i hcond
          have hveq : getTextStrip el = v := Option.some.inj hv
          have := (Bool.and_eq_true _ _).mp hcond
          rw [← hveq]
          exact this.2
        · exact absurd hv (by simp)
    | none =>
        rw [hff] at hv
        exact absurd hv (by simp)
  | none =>
    cases hfb : priceFallback soup with
    | some v =>
      right
      obtain ⟨s, _, hs⟩ := exists_of_firstSome_some hfb
      simp only [] at hs
      split at hs
      · rename_i hcond
        have hveq : firstToken (pyStrip s) = v := Option.some.inj hs
        have := (Bool.and_eq_true _ _).mp hcond
        rw [← hveq]
        exact firstToken_dollar this.1
      · exact absurd hs (by simp)
    | none =>
      left
      rfl

/-- C4: the extractors are total functions into String — in the
embedding no exception can escape, matching the catch-all handlers of
the source — and on a document with no matching elements (no h1, span
or div element, no text with a dollar sign, no text with a
days-on-market label) every one of the five extractors returns exactly
"N/A". -/
theorem c4_extractors_default_na (d : HNode)
    (hH1 : ∀ q ∈ flatten d, isTag "h1" q.2 = false)
    (hSpan : ∀ q ∈ flatten d, isTag "span" q.2 = false)
    (hDiv : ∀ q ∈ flatten d, isTag "div" q.2 = false)
    (hDollar : ∀ s ∈ docStrings d, containsStr s "$" = false)
    (hDays : ∀ s ∈ docStrings d, containsStr (pyLower s) "on zillow" = false ∧
        containsStr (pyLower s) "days on market" = false) :
    extract_address d = "N/A" ∧ extract_lot_size d = "N/A" ∧ extract_price d = "N/A" ∧
      extract_price_per_sqft d = "N/A" ∧ extract_days_on_market d = "N/A" := by
  have hfindNone : ∀ sel : HNode → Bool, (∀ q ∈ flatten d, sel q.2 = false) →
      findFirst d sel = none := by
    intro sel hsel
    unfold findFirst
    rw [List.find?_eq_none.mpr fun q hq => by simp [hsel q hq]]
    rfl
  have haddr : extract_address d = "N/A" := by
    unfold extract_address
    have hmain : firstSome (fun sel =>
        match findFirst d sel with
        | some el =>
            let t := getTextStrip el
            if t != "" then some t else none
        | none => none) addressSelectors = none := by
      apply firstSome_eq_none
      intro sel hsel
      have hcases : sel = (fun n => isTag "h1" n && classEquals n "ds-address-container")
          ∨ sel = (fun n => isTag "h1" n && (n.attr "data-testid" == some "bdp-address"))
          ∨ sel = (fun n => isTag "h1" n) := by
        simpa [addressSelectors] using hsel
      have hnone : findFirst d sel = none := by
        apply hfindNone
        intro q hq
        rcases hcases with rfl | rfl | rfl <;> simp [hH1 q hq]
      rw [hnone]
    rw [hmain]
    rfl
  have hlotspans : ∀ kw, lotSpans d kw = [] := by
    intro kw
    unfold lotSpans
    exact List.filter_eq_nil_iff.mpr fun q hq => by simp [hSpan q hq]
  have hlot : extract_lot_size d = "N/A" := by
    unfold extract_lot_size
    have h1 : lotMethod1 d = none := by
      unfold lotMethod1
      apply firstSome_eq_none
      intro kw _
      rw [hlotspans kw]
      rfl
    have h2 : lotMethod2 d = none := by
      unfold lotMethod2
      rw [List.filter_eq_nil_iff.mpr
        (fun q hq => by simp [hSpan q hq] :
          ∀ q ∈ flatten d, ¬ ((isTag "span" q.2 && testidContainsCI q.2 "lot") = true))]
      rfl
    rw [h1, h2]
  have hprice : extract_price d = "N/A" := by
    unfold extract_price
    have hs : priceFromSelectors d = none := by
      unfold priceFromSelectors
      apply firstSome_eq_none
      intro sel hsel
      unfold priceTrySelector
      have hcases : sel = (fun n => isTag "span" n && (n.attr "data-testid" == some "price"))
          ∨ sel = (fun n => isTag "span" n && classContainsCI n "price")
          ∨ sel = (fun n => isTag "div" n && classContainsCI n "price") := by
        simpa [priceSelectors] using hsel
      have hnone : findFirst d sel = none := by
        apply hfindNone
        intro q hq
        rcases hcases with rfl | rfl | rfl
        · simp [hSpan q hq]
        · simp [hSpan q hq]
        · simp [hDiv q hq]
      rw [hnone]
    have hcand : priceFallbackCandidates d = [] := by
      unfold priceFallbackCandidates
      exact List.filter_eq_nil_iff.mpr fun s hs2 => by simp [hDollar s hs2]
    have hf : priceFallback d = none := by
      unfold priceFallback
      rw [hcand]
      rfl
    rw [hs, hf]
  have hpps : extract_price_per_sqft d = "N/A" := by
    unfold extract_price_per_sqft
    have h1 : ∀ pat, ppsSpans d pat = [] := by
      intro pat
      unfold ppsSpans
      exact List.filter_eq_nil_iff.mpr fun q hq => by simp [hSpan q hq]
    have hmain : firstSome (fun pat =>
        firstSome (fun q => ppsCandidate d q.1) (ppsSpans d pat)) ppsPatterns = none := by
      apply firstSome_eq_none
      intro pat _
      rw [h1 pat]
      rfl
    have h2 : findFirst d (fun n => isTag "span" n && testidContainsCI n "price-per-sqft")
        = none := hfindNone _ fun q hq => by simp [hSpan q hq]
    rw [hmain, h2]
  have hdaysnodes : ∀ kw ∈ daysKeywords, daysTextNodes d kw = [] := by
    intro kw hkw
    unfold daysTextNodes
    apply List.filterMap_eq_nil_iff.mpr
    intro q hq
    rcases q with ⟨p, n⟩
    cases n with
    | elem t a cs => rfl
    | text s =>
      have hsmem : s ∈ docStrings d := List.mem_filterMap.mpr ⟨(p, HNode.text s), hq, rfl⟩
      have hcases : kw = "Time on Zillow" ∨ kw = "Days on Zillow" ∨ kw = "on Zillow"
          ∨ kw = "Days on market" := by
        simpa [daysKeywords] using hkw
      have hcontr : containsStr (pyLower s) (pyLower kw) = false := by
        rcases hcases with rfl | rfl | rfl | rfl
        · by_contra hne
          rw [Bool.not_eq_false] at hne
          have htr := containsStr_trans "on zillow" hne (by decide)
          rw [(hDays s hsmem).1] at htr
          exact Bool.false_ne_true htr
        · by_contra hne
          rw [Bool.not_eq_false] at hne
          have htr := containsStr_trans "on zillow" hne (by decide)
          rw [(hDays s hsmem).1] at htr
          exact Bool.false_ne_true htr
        · by_contra hne
          rw [Bool.not_eq_false] at hne
          have htr := containsStr_trans "on zillow" hne (by decide)
          rw [(hDays s hsmem).1] at htr
          exact Bool.false_ne_true htr
        · by_contra hne
          rw [Bool.not_eq_false] at hne
          have htr := containsStr_trans "days on market" hne (by decide)
          rw [(hDays s hsmem).2] at htr
          exact Bool.false_ne_true htr
      simp [hcontr]
  have hdays : extract_days_on_market d = "N/A" := by
    unfold extract_days_on_market
    have hmain : firstSome (fun kw =>
        firstSome (fun q => daysCandidate d q.1) (daysTextNodes d kw)) daysKeywords = none := by
      apply firstSome_eq_none
      intro kw hkw
      rw [hdaysnodes kw hkw]
      rfl
    rw [hmain]
    rfl
  exact ⟨haddr, hlot, hprice, hpps, hdays⟩

/-- Witness document for C4: no h1, span or div, no matching text. -/
def c4Doc : HNode :=
  .elem "[document]" [] (kidsOf [.elem "p" [] (kidsOf [.text "hello world"])])

/-- Witness for C4: on the concrete no-match document every extractor
returns the sentinel. -/
theorem c4_extractors_default_na_witness :
    extract_address c4Doc = "N/A" ∧ extract_lot_size c4Doc = "N/A" ∧
      extract_price c4Doc = "N/A" ∧ extract_price_per_sqft c4Doc = "N/A" ∧
      extract_days_on_market c4Doc = "N/A" :=
  c4_extractors_default_na c4Doc (by decide) (by decide) (by decide) (by decide) (by decide)

/-- The first element (Tag) sibling after the node at `p`. -/
def nextSiblingElem (d : HNode) (p : Path) : Option HNode :=
  (siblingElemsAfter d p).head?

/-- Lot-size strategy 1 for one matched span, as claim C3 words it: the
candidate is the text of the next sibling element of the matched span's
parent (the nearest enclosing block), rejected when identical to the
keyword. -/
def lotCandidateClaimed (soup : HNode) (keyword : String) : Path → Option String
  | [] => none
  | p@(_ :: _) =>
    match nextSiblingElem soup p.dropLast with
    | some sib =>
        let t := getTextStrip sib
        if t != keyword then some t else none
    | none => none

/-- The lot-size extractor as claim C3 describes it: identical to
`extract_lot_size` except in strategy 1's candidate. -/
def lot_size_claimed (soup : HNode) : String :=
  match firstSome (fun kw => firstSome (fun q => lotCandidateClaimed soup kw q.1)
      (lotSpans soup kw)) lotKeywords with
  | some v => v
  | none =>
    match lotMethod2 soup with
    | some v => v
    | none => "N/A"

/-- The C3 counterexample document: a div holding the keyword span,
followed by a sibling span holding the value. -/
def lotDoc : HNode :=
  .elem "[document]" [] (kidsOf [
    .elem "div" [] (kidsOf [.elem "span" [] (kidsOf [.text "Lot size"])]),
    .elem "span" [] (kidsOf [.text "7,400 sqft"])])

/-- C3 counterexample: on `lotDoc` the claimed reading (next sibling
element of the enclosing block) produces "7,400 sqft", but the code's
`parent.find_next('span')` walks into the parent's own subtree, finds
the keyword span itself, rejects it as identical to the keyword, and
the extractor returns "N/A" — the claim is false of the code. -/
theorem c3_lot_size_counterexample :
    lot_size_claimed lotDoc = "7,400 sqft" ∧ extract_lot_size lotDoc = "N/A" ∧
      extract_lot_size lotDoc ≠ lot_size_claimed lotDoc :=
  ⟨by decide, by decide, by decide⟩

/-- Lot-size strategy 1 for one matched span, amended: the candidate is
the text of the first span element strictly after the span's parent in
document order (the parent's own descendant spans included — typically
the keyword span itself), rejected when empty or identical to the
keyword. -/
def lotCandidateAmended (soup : HNode) (keyword : String) : Path → Option String
  | [] => none
  | p@(_ :: _) =>
    match ((flatten soup).filter fun q => pathLt p.dropLast q.1 && isTag "span" q.2).head? with
    | some q =>
        let t := getTextStrip q.2
        if t != "" && t != keyword then some t else none
    | none => none

/-- The lot-size extractor as amended by C3's counterexample. -/
def lot_size_amended (soup : HNode) : String :=
  match firstSome (fun kw => firstSome (fun q => lotCandidateAmended soup kw q.1)
      (lotSpans soup kw)) lotKeywords with
  | some v => v
  | none =>
    match lotMethod2 soup with
    | some v => v
    | none => "N/A"

/-- `find_next(tag)` is the head of the document-order list of strictly
later nodes with that tag. -/
theorem findNextTag_eq_head (soup : HNode) (pp : Path) (tag : String) :
    findNextTag soup pp tag
      = (((flatten soup).filter fun q => pathLt pp q.1 && isTag tag q.2).head?).map (·.2) := by
  unfold findNextTag
  rw [find?_filter_eq_head?]

theorem lotCandidate_eq_amended (soup : HNode) (kw : String) (p : Path) :
    lotCandidate soup kw p = lotCandidateAmended soup kw p := by
  cases p with
  | nil => rfl
  | cons a q =>
    simp only [lotCandidate, lotCandidateAmended]
    rw [findNextTag_eq_head]
    cases h : ((flatten soup).filter fun r =>
        pathLt (a :: q).dropLast r.1 && isTag "span" r.2).head? with
    | none => rfl
    | some r => rfl

/-- C3 amended: in strategy 1 of the lot-size extractor, for every span
whose single text content contains one of the keyword literals, the
candidate value is the trimmed text of the first span element strictly
after the span's parent in document order (the parent's own descendant
spans included), and it is rejected when empty or identical to the
keyword — `extract_lot_size` coincides with this description on every
document. -/
theorem c3_lot_size_amended (soup : HNode) :
    extract_lot_size soup = lot_size_amended soup := by
  unfold extract_lot_size lot_size_amended
  have h1 : lotMethod1 soup = firstSome (fun kw => firstSome
      (fun q => lotCandidateAmended soup kw q.1) (lotSpans soup kw)) lotKeywords := by
    unfold lotMethod1
    exact firstSome_congr fun kw _ =>
      firstSome_congr fun q _ => lotCandidate_eq_amended soup kw q.1
  rw [h1]

theorem firstSome_three_orElse {α β : Type} (f : α → Option β) (a b c : α) :
    firstSome f [a, b, c] = (f a).orElse fun _ => (f b).orElse fun _ => f c := by
  cases hfa : f a <;> cases hfb : f b <;> cases hfc : f c <;>
    simp [firstSome, hfa, hfb, hfc, Option.orElse]

/-- The price extractor as claim C5 describes it: strategies (a) and (b)
in order — the data-testid "price" span, then the span and then the div
whose class contains "price", each accepted only when its text contains
"$" — then the fallback: among the text nodes containing "$" and at
least one digit, in document order, the first whose stripped text
starts with "$" and contains a comma contributes its first
whitespace-delimited token. -/
def price_claim (soup : HNode) : String :=
  ((priceTrySelector soup
      (fun n => isTag "span" n && (n.attr "data-testid" == some "price"))).orElse fun _ =>
    (priceTrySelector soup (fun n => isTag "span" n && classContainsCI n "price")).orElse fun _ =>
      (priceTrySelector soup (fun n => isTag "div" n && classContainsCI n "price")).orElse fun _ =>
        ((((docStrings soup).filter fun s => containsStr s "$" && s.data.any Char.isDigit).map
            pyStrip).find? fun t => startsWithStr t "$" && containsStr t ",").map
          firstToken).getD "N/A"

/-- C5: the price extractor behaves exactly as the claim describes — the
document-order fallback over dollar-and-digit text nodes returning the
first whitespace token of the first stripped text starting with "$" and
containing a comma, tried after the selector strategies with their
dollar-sign acceptance. -/
theorem c5_price_extractor_matches_claim (soup : HNode) :
    extract_price soup = price_claim soup := by
  have hfb : priceFallback soup
      = ((((docStrings soup).filter fun s => containsStr s "$" && s.data.any Char.isDigit).map
          pyStrip).find? fun t => startsWithStr t "$" && containsStr t ",").map firstToken := by
    unfold priceFallback priceFallbackCandidates
    exact firstSome_map_find pyStrip (fun t => startsWithStr t "$" && containsStr t ",")
      firstToken _
  unfold extract_price price_claim priceFromSelectors priceSelectors
  rw [firstSome_three_orElse, hfb]
  generalize priceTrySelector soup
    (fun n => isTag "span" n && (n.attr "data-testid" == some "price")) = o1
  generalize priceTrySelector soup (fun n => isTag "span" n && classContainsCI n "price") = o2
  generalize priceTrySelector soup (fun n => isTag "div" n && classContainsCI n "price") = o3
  generalize ((((docStrings soup).filter fun s => containsStr s "$" && s.data.any Char.isDigit).map
      pyStrip).find? fun t => startsWithStr t "$" && containsStr t ",").map firstToken = o4
  cases o1 <;> cases o2 <;> cases o3 <;> cases o4 <;> rfl

/-- The acceptance condition of claim C6 for a numeric token: the
following token (when there is one) contains "day", or the full text
contains "zillow" or "market". -/
def daysAccept (fullLower : String) (following : Option String) : Bool :=
  (match following with
   | some nxt => containsStr (pyLower nxt) "day"
   | none => false)
  || containsStr fullLower "zillow" || containsStr fullLower "market"

/-- The token scan as claim C6 words it: the first purely numeric token
(commas allowed) passing `daysAccept` is returned with " days"
appended. -/
def daysScanClaim (fullLower : String) : List String → Option String
  | [] => none
  | w :: rest =>
    if numericTok w && daysAccept fullLower rest.head? then some (w ++ " days")
    else daysScanClaim fullLower rest

/-- One step of the code's token scan, expressed with the claim's
acceptance condition; the recursive call is untouched. -/
theorem daysScan_step (fl w : String) (rest : List String) :
    daysScan fl (w :: rest)
      = if numericTok w && daysAccept fl rest.head? then some (w ++ " days")
        else daysScan fl rest := by
  cases rest with
  | nil =>
    by_cases hn : numericTok w = true
    · by_cases hz : (containsStr fl "zillow" || containsStr fl "market") = true
      · simp [daysScan, daysAccept, hn, hz]
      · simp only [Bool.not_eq_true] at hz
        simp [daysScan, daysAccept, hn, hz]
    · simp only [Bool.not_eq_true] at hn
      simp [daysScan, daysAccept, hn]
  | cons nxt rest2 =>
    by_cases hn : numericTok w = true
    · by_cases hd : containsStr (pyLower nxt) "day" = true
      · simp [daysScan, daysAccept, hn, hd]
      · simp only [Bool.not_eq_true] at hd
        by_cases hz : (containsStr fl "zillow" || containsStr fl "market") = true
        · simp [daysScan, daysAccept, hn, hd, hz]
        · simp only [Bool.not_eq_true] at hz
          simp [daysScan, daysAccept, hn, hd, hz]
    · simp only [Bool.not_eq_true] at hn
      simp [daysScan, daysAccept, hn]

theorem daysScan_eq_claim (fl : String) : ∀ ws : List String,
    daysScan fl ws = daysScanClaim fl ws := by
  intro ws
  induction ws with
  | nil => rfl
  | cons w rest ih =>
    rw [daysScan_step]
    by_cases hc : (numericTok w && daysAccept fl rest.head?) = true
    · simp [daysScanClaim, hc]
    · simp only [Bool.not_eq_true] at hc
      simp [daysScanClaim, hc, ih]

/-- The per-match candidate as claim C6 words it. -/
def daysCandidateClaim (soup : HNode) : Path → Option String
  | [] => none
  | p@(_ :: _) =>
    match nodeAt soup p.dropLast with
    | some parent =>
        let ft := getTextStrip parent
        daysScanClaim (pyLower ft) (pySplit ft)
    | none => none

/-- The days-on-market extractor as claim C6 describes it. -/
def days_claim (soup : HNode) : String :=
  (firstSome (fun kw => firstSome (fun q => daysCandidateClaim soup q.1)
      (daysTextNodes soup kw)) daysKeywords).getD "N/A"

theorem daysCandidate_eq_claim (soup : HNode) (p : Path) :
    daysCandidate soup p = daysCandidateClaim soup p := by
  cases p with
  | nil => rfl
  | cons a q =>
    simp only [daysCandidate, daysCandidateClaim]
    cases h : nodeAt soup (a :: q).dropLast with
    | none => rfl
    | some parent => exact daysScan_eq_claim _ _

/-- C6: the days-on-market extractor behaves exactly as the claim
describes — for text nodes containing one of the labels
case-insensitively, the parent's full text is tokenized on whitespace,
the first purely numeric token (commas allowed) is selected, accepted
when the following token contains "day" or the full text contains
"zillow" or "market", and returned formatted as "<number> days". -/
theorem c6_days_extractor_matches_claim (soup : HNode) :
    extract_days_on_market soup = days_claim soup := by
  unfold extract_days_on_market days_claim
  have h : firstSome (fun kw => firstSome (fun q => daysCandidate soup q.1)
        (daysTextNodes soup kw)) daysKeywords
      = firstSome (fun kw => firstSome (fun q => daysCandidateClaim soup q.1)
        (daysTextNodes soup kw)) daysKeywords :=
    firstSome_congr fun kw _ => firstSome_congr fun q _ => daysCandidate_eq_claim soup q.1
  rw [h]

end Scraper
